import Mathlib

/-!
Shallow embedding of the candidate-analysis pipeline
(`find_top_engineers.py`, `analyze_candidate.py`, `utils/github_client.py`).

Strings from the Python side are modelled as `List Char`; file paths as
`List String` (path segments); the file system as an association list of
entries carrying a path, a content and a modification time.
-/

namespace CandidateAnalysis

/-! ### Basic text utilities (Python `str.strip`, `str.lower`, `in`, `rstrip`) -/

/-- Python regex `\s` / `str.strip()` whitespace set (ASCII). -/
def isWsChar (c : Char) : Bool :=
  c = ' ' || c = '\t' || c = '\n' || c = '\r' || c = '\x0b' || c = '\x0c'

/-- `str.strip()`: drop leading and trailing whitespace. -/
def stripBoth (l : List Char) : List Char :=
  ((l.dropWhile isWsChar).reverse.dropWhile isWsChar).reverse

/-- `str.strip()` on a `String` (used for ledger lines). -/
def stripS (s : String) : String :=
  (stripBoth s.toList).asString

/-- `str.lower()` (ASCII). -/
def toLowerL (l : List Char) : List Char :=
  l.map Char.toLower

/-- Python `needle in hay` substring test. -/
def hasSub (needle : List Char) : List Char → Bool
  | [] => needle.isEmpty
  | c :: t => needle.isPrefixOf (c :: t) || hasSub needle t

/-- `url.rstrip('/')`: drop every trailing `'/'`. -/
def rstripSlash (l : List Char) : List Char :=
  (l.reverse.dropWhile (fun c => c = '/')).reverse

/-- `url.rstrip('/').split('/')[-1]`: the final path segment
(everything after the last `'/'` once trailing separators are stripped). -/
def candidateName (url : String) : String :=
  ((rstripSlash url.toList).reverse.takeWhile (fun c => c ≠ '/')).reverse.asString

/-! ### The label regexes `\*\*Label:\*\*\s*([^\n]+)`

`wsGroup rest` is the group captured by `\s*([^\n]+)` matched at the start of
`rest`: the greedy `\s*` takes the maximal whitespace run; if nothing is left,
it backtracks until `[^\n]+` can take one character (necessarily the last
non-newline whitespace character), else the match fails. -/

def wsGroup (rest : List Char) : Option (List Char) :=
  let t := rest.dropWhile isWsChar
  if t.isEmpty then
    match (rest.filter (fun c => c ≠ '\n')).getLast? with
    | some c => some [c]
    | none => none
  else
    some (t.takeWhile (fun c => c ≠ '\n'))

/-- `re.search(label + r'\s*([^\n]+)', content)` for a literal `label`:
scan left to right for the first position where the whole pattern matches and
return the captured group. -/
def findLabel (lab : List Char) : List Char → Option (List Char)
  | [] => none
  | c :: t =>
    if lab.isPrefixOf (c :: t) then
      (wsGroup (List.drop lab.length (c :: t))).orElse (fun _ => findLabel lab t)
    else
      findLabel lab t

/-- `match.group(1).strip()` for a label search, as both call sites use it. -/
def labelOf (lab : String) (content : List Char) : Option String :=
  (findLabel lab.toList content).map (fun g => (stripBoth g).asString)

/-! ### File-system model -/

structure FileEnt where
  path : List String
  content : List Char
  mtime : Nat
deriving DecidableEq, Repr

abbrev FS := List FileEnt

def readFile (fs : FS) (p : List String) : Option (List Char) :=
  (fs.find? (fun e => e.path == p)).map FileEnt.content

/-- `open(p, 'w').write(c)`: create or overwrite. -/
def writeFile (fs : FS) (p : List String) (c : List Char) (t : Nat) : FS :=
  (fs.filter (fun e => !(e.path == p))) ++ [⟨p, c, t⟩]

/-- `shutil.move(src, dst)` where `dst` is a file path: the destination is
created or overwritten with the source entry (mtime preserved), and the
source entry disappears. -/
def moveFile (fs : FS) (src dst : List String) : FS :=
  match fs.find? (fun e => e.path == src) with
  | none => fs
  | some e =>
      (fs.filter (fun x => !(x.path == src) && !(x.path == dst))) ++ [⟨dst, e.content, e.mtime⟩]

/-- `report_path.name`: the last path segment. -/
def lastName (p : List String) : String := p.getLastD ""

/-! ### Report router (`move_report_to_status_folder`) -/

inductive FsErr where
  | fileNotFound
deriving DecidableEq, Repr

/-- Embedding of `move_report_to_status_folder` (find_top_engineers.py:59-76).
Reads the report, searches for `**Recommendation:** <value>`, lowers the
stripped value, routes on the substring checks (checking
"strongly shortlist" before "shortlist"), and moves the file to
`candidates/<bucket>/<report_path.name>`.  With no recommendation line the
file stays where it is. A missing report file raises (`open` fails). -/
def move_report_to_status_folder (fs : FS) (report_path : List String) :
    Except FsErr (FS × List String) :=
  match readFile fs report_path with
  | none => .error .fileNotFound
  | some content =>
    match findLabel ("**Recommendation:**".toList) content with
    | none => .ok (fs, report_path)
    | some g =>
      let recommendation := toLowerL (stripBoth g)
      let folder : List String :=
        if hasSub ("strongly shortlist".toList) recommendation then
          ["candidates", "strongly_shortlist"]
        else if hasSub ("shortlist".toList) recommendation then
          ["candidates", "shortlist"]
        else
          ["candidates", "reject"]
      let newPath := folder ++ [lastName report_path]
      .ok (moveFile fs report_path newPath, newPath)

/-! ### Processed ledger (`processed_candidates.txt`) -/

/-- State of the ledger file: missing, unreadable (an `IOError` while
opening/reading), or available with its lines (as written, one URL per line). -/
inductive LedgerFile where
  | absent
  | unreadable
  | avail (lines : List String)
deriving DecidableEq, Repr

/-- Embedding of `is_candidate_processed` (find_top_engineers.py:39-48).
An empty URL or a missing file short-circuits to `False`; a read failure is
caught and degrades to `False`; otherwise the URL is tested for membership in
the set of stripped lines. -/
def is_candidate_processed (ledger : LedgerFile) (github_url : String) : Bool :=
  if github_url == "" then false
  else
    match ledger with
    | .absent => false
    | .unreadable => false
    | .avail lines => (lines.map stripS).contains github_url

/-- Embedding of `mark_candidate_processed` (find_top_engineers.py:50-57):
append the URL as a new line (creating the file if needed); an empty URL is a
no-op.  (A failing append calls `sys.exit(1)`; the unreadable state is left
unchanged here, no claim depends on it.) -/
def mark_candidate_processed (ledger : LedgerFile) (github_url : String) : LedgerFile :=
  if github_url == "" then ledger
  else
    match ledger with
    | .absent => .avail [github_url]
    | .unreadable => .unreadable
    | .avail lines => .avail (lines ++ [github_url])

/-! ### `analyze_candidate` (analyze_candidate.py:15-61)

The two external adapters and the recommendation engine are parameters:
`fetch` is `GitHubBrowseAgent.get_candidate_github_data` (its `except` branch,
`utils/github_client.py:77-79`, returns the empty dict `{}`, modelled as
`none`); `llmRes` is the `LLMClient.get_completion` result for the composed
prompt (`none` = engine failure).  The record fields that only feed the prompt
text are irrelevant to control flow and are not enumerated; the field the
caller dereferences, `profile.linkedin_url`, is explicit. -/

/-- Python exceptions that escape `analyze_candidate`. -/
inductive PyErr where
  | attributeError
  | unboundLocalError
deriving DecidableEq, Repr

/-- `github_data['profile']` as far as `analyze_candidate` reads it. -/
structure GHProfileRec where
  linkedin_url : Option String
deriving DecidableEq, Repr

/-- A populated `get_candidate_github_data` result (`{}` is `Option.none`). -/
structure GitHubData where
  profile : GHProfileRec
deriving DecidableEq, Repr

/-- `get_linkedin_profile_data` result as far as `analyze_candidate` reads it:
`parsed_data` is `none` when the key is missing or its dict is empty (falsy). -/
structure LinkedInResult where
  parsed_data : Option (List (String × String))
deriving DecidableEq, Repr

/-- Embedding of `analyze_candidate`.

* With a non-empty `github_url`: `username = github_url.rstrip('/').split('/')[-1]`,
  then `github_data = fetch(username)`.  The next line is
  `linkedin_url = github_data.get('profile').get('linkedin_url')`: on the empty
  dict, `.get('profile')` is `None` and `.get('linkedin_url')` raises
  `AttributeError`.
* With an empty `github_url` the whole `if github_url:` block is skipped, so
  `linkedin_url` was never assigned and `if linkedin_url:` raises
  `UnboundLocalError`.
* Otherwise LinkedIn data is fetched when the discovered URL is truthy, the
  prompt is composed and the engine result is returned as is. -/
def analyze_candidate (fetch : String → Option GitHubData)
    (liFetch : String → Option LinkedInResult) (llmRes : Option (List Char))
    (github_url : String) : Except PyErr (Option (List Char)) :=
  if github_url == "" then
    .error .unboundLocalError
  else
    let username := candidateName github_url
    match fetch username with
    | none => .error .attributeError
    | some github_data =>
      let linkedin_url := github_data.profile.linkedin_url
      let _linkedin_data : Option (List (String × String)) :=
        match linkedin_url with
        | none => none
        | some lu =>
          if lu == "" then none
          else
            match liFetch lu with
            | none => none
            | some r => r.parsed_data
      .ok llmRes

/-! ### `analyze_user` (find_top_engineers.py:78-103) -/

/-- The fields of a PyGithub `NamedUser` that `analyze_user` reads.
`updated_at` is a timezone-aware timestamp modelled in seconds. -/
structure User where
  login : String
  html_url : String
  updated_at : Int
deriving DecidableEq, Repr

/-- Pipeline state: the report store plus the processed ledger.  `clock` only
feeds the mtimes of newly written files. -/
structure St where
  fs : FS
  ledger : LedgerFile
  clock : Nat
deriving DecidableEq, Repr

/-- Observable external actions of one `analyze_user` call, in order. -/
inductive Ev where
  | fetchEv
  | reportWriteEv (p : List String)
  | ledgerAppendEv (u : String)
deriving DecidableEq, Repr

/-- The dict `analyze_user` returns on success. -/
structure AUResult where
  login : String
  url : String
  analysis : List Char
deriving DecidableEq, Repr

/-- `CUTOFF_DAYS` (find_top_engineers.py:22). -/
def CUTOFF_DAYS : Int := 90

/-- `cutoff = datetime.now(pytz.UTC) - timedelta(days=CUTOFF_DAYS)`
(find_top_engineers.py:23), in seconds. -/
def cutoffOf (now : Int) : Int := now - CUTOFF_DAYS * 86400

/-- `get_report_path` (find_top_engineers.py:26-37): `None` for an empty URL,
otherwise `candidates/<last path segment>/report.md`. -/
def get_report_path (github_url : String) : Option (List String) :=
  if github_url == "" then none
  else some ["candidates", candidateName github_url, "report.md"]

/-- Embedding of `analyze_user`.  `engine` is what `analyze_candidate` returns
for this user (a raising `analyze_candidate` is caught by the surrounding
`except`, which exits the process, as would a failing `open`: both are the
`.error` outcome).  The trace records the adapter invocation, the report-file
write and the ledger append, in the order the code performs them.
`mark_candidate_processed` is also called when `report_path` is `None`
(empty URL), where it is a no-op on the ledger. -/
def analyze_user (st : St) (user : User) (force_reanalysis : Bool) (cutoff : Int)
    (engine : Option (List Char)) : Except Unit (St × Option AUResult × List Ev) :=
  if !force_reanalysis && is_candidate_processed st.ledger user.html_url then
    .ok (st, none, [])
  else if user.updated_at < cutoff then
    .ok (st, none, [])
  else
    match engine with
    | none => .ok (st, none, [.fetchEv])
    | some analysis =>
      match get_report_path user.html_url with
      | none =>
        .ok (st, some ⟨user.login, user.html_url, analysis⟩, [.fetchEv])
      | some report_path =>
        let fs1 := writeFile st.fs report_path analysis st.clock
        match move_report_to_status_folder fs1 report_path with
        | .error _ => .error ()
        | .ok (fs2, _newPath) =>
          let ledger1 := mark_candidate_processed st.ledger user.html_url
          .ok (⟨fs2, ledger1, st.clock + 1⟩,
               some ⟨user.login, user.html_url, analysis⟩,
               [.fetchEv, .reportWriteEv report_path, .ledgerAppendEv user.html_url])

/-! ### Shortlist projection (`get_shortlisted_candidates`, find_top_engineers.py:105-133) -/

/-- The per-report dict the projection builds. -/
structure CandInfo where
  name : String
  location : String
  linkedin : String
  github : String
  evaluation_status : String
  report_path : List String
  last_updated : Nat
deriving DecidableEq, Repr

/-- The field extraction for one stored report (find_top_engineers.py:113-128),
with the literal defaults for each missing label. -/
def candidateInfoOf (content : List Char) (p : List String) (mt : Nat) : CandInfo where
  name := (labelOf "**Name:**" content).getD "Unknown"
  location := (labelOf "**Location:**" content).getD "Unable to verify"
  linkedin := (labelOf "**LinkedIn:**" content).getD "Unable to verify"
  github := (labelOf "**GitHub:**" content).getD "Unknown"
  evaluation_status := (labelOf "**Recommendation:**" content).getD "Limited"
  report_path := p
  last_updated := mt

/-- `(base_dir / bucket).glob("*/report.md")`: the files one directory level
below the bucket named `report.md`. -/
def bucketFiles (fs : FS) (bucket : String) : List FileEnt :=
  fs.filter (fun e =>
    match e.path with
    | [a, b, _c, d] => a == "candidates" && b == bucket && d == "report.md"
    | _ => false)

/-- Python-dict upsert: replacing a present key keeps its insertion position,
a new key is appended. -/
def updAssoc (m : List (String × CandInfo)) (k : String) (v : CandInfo) :
    List (String × CandInfo) :=
  if m.any (fun q => q.1 == k) then
    m.map (fun q => if q.1 == k then (k, v) else q)
  else
    m ++ [(k, v)]

/-- Stable insertion for descending `last_updated` (Python
`sorted(key=..., reverse=True)` keeps equal keys in encounter order). -/
def insertDesc (x : CandInfo) : List CandInfo → List CandInfo
  | [] => [x]
  | y :: ys =>
    if y.last_updated < x.last_updated then x :: y :: ys else y :: insertDesc x ys

def sortByMtimeDesc (l : List CandInfo) : List CandInfo :=
  l.foldl (fun acc x => insertDesc x acc) []

/-- Embedding of `get_shortlisted_candidates`: scan the `shortlist` then the
`strongly_shortlist` bucket for `*/report.md`, extract the labelled fields,
key each entry by its (stripped) `**GitHub:**` value — a report whose GitHub
label is missing (or strips to the empty, falsy string) is dropped — and
return the dict values sorted by mtime, descending. -/
def get_shortlisted_candidates (fs : FS) : List CandInfo :=
  let step := fun (m : List (String × CandInfo)) (e : FileEnt) =>
    let info := candidateInfoOf e.content e.path e.mtime
    match labelOf "**GitHub:**" e.content with
    | some k => if k == "" then m else updAssoc m k info
    | none => m
  let m1 := (bucketFiles fs "shortlist").foldl step []
  let m2 := (bucketFiles fs "strongly_shortlist").foldl step m1
  sortByMtimeDesc (m2.map (fun q => q.2))

/-! ### LinkedIn link discovery (`get_linkedin_from_github`,
utils/github_client.py:109-127)

The function assembles `text_to_search` from the profile bio, the social
links and the README, then tries four regexes in priority order with
`re.search(..., re.IGNORECASE)` and normalizes the first match.  The four
patterns are embedded as leftmost matchers over the assembled text.  The two
optional pieces `s?` and `(www\.)?` are compiled greedily without
backtracking, which coincides with the regex semantics here: skipping the
optional piece can only succeed when the following literal matches, and that
literal (`://` resp. `linkedin.`) can never also begin the optional piece. -/

/-- The character class `[a-zA-Z0-9\-_%]`. -/
def lcClass (c : Char) : Bool :=
  (('a' ≤ c && c ≤ 'z') || ('A' ≤ c && c ≤ 'Z') || ('0' ≤ c && c ≤ '9')
    || c = '-' || c = '_' || c = '%')

/-- Case-insensitive literal match at the head of `text`; returns the matched
original characters and the remainder. -/
def ciTake (pat : List Char) (text : List Char) : Option (List Char × List Char) :=
  match pat, text with
  | [], t => some ([], t)
  | _ :: _, [] => none
  | p :: ps, c :: cs =>
    if c.toLower == p.toLower then
      (ciTake ps cs).map (fun r => (c :: r.1, r.2))
    else
      none

/-- `[a-zA-Z0-9\-_%]+` (greedy): the maximal nonempty class run. -/
def classRun (text : List Char) : Option (List Char × List Char) :=
  let m := text.takeWhile lcClass
  if m.isEmpty then none else some (m, text.drop m.length)

/-- `/?` (greedy). -/
def optSlash (text : List Char) : List Char × List Char :=
  match text with
  | '/' :: t => (['/'], t)
  | t => ([], t)

/-- `(https?://(www\.)?linkedin\.com/in/[a-zA-Z0-9\-_%]+/?)` at the head. -/
def pat1At (text : List Char) : Option (List Char) :=
  match ciTake ("http".toList) text with
  | none => none
  | some (m1, r1) =>
    let sOpt := match ciTake (['s']) r1 with
      | some (a, b) => (a, b)
      | none => (([] : List Char), r1)
    match ciTake ("://".toList) sOpt.2 with
    | none => none
    | some (m3, r3) =>
      let wOpt := match ciTake ("www.".toList) r3 with
        | some (a, b) => (a, b)
        | none => (([] : List Char), r3)
      match ciTake ("linkedin.com/in/".toList) wOpt.2 with
      | none => none
      | some (m5, r5) =>
        match classRun r5 with
        | none => none
        | some (m6, r6) =>
          some (m1 ++ sOpt.1 ++ m3 ++ wOpt.1 ++ m5 ++ m6 ++ (optSlash r6).1)

/-- `(linkedin\.com/in/[a-zA-Z0-9\-_%]+/?)` at the head. -/
def pat2At (text : List Char) : Option (List Char) :=
  match ciTake ("linkedin.com/in/".toList) text with
  | none => none
  | some (m1, r1) =>
    match classRun r1 with
    | none => none
    | some (m2, r2) => some (m1 ++ m2 ++ (optSlash r2).1)

/-- `(in/[a-zA-Z0-9\-_%]+/?)` at the head. -/
def pat3At (text : List Char) : Option (List Char) :=
  match ciTake ("in/".toList) text with
  | none => none
  | some (m1, r1) =>
    match classRun r1 with
    | none => none
    | some (m2, r2) => some (m1 ++ m2 ++ (optSlash r2).1)

/-- `(@[a-zA-Z0-9\-_%]+)` at the head. -/
def pat4At (text : List Char) : Option (List Char) :=
  match text with
  | '@' :: r =>
    match classRun r with
    | none => none
    | some (m, _) => some ('@' :: m)
  | _ => none

/-- `re.search`: the leftmost position where the pattern matches. -/
def searchPat (f : List Char → Option (List Char)) : List Char → Option (List Char)
  | [] => none
  | c :: t => (f (c :: t)).orElse (fun _ => searchPat f t)

/-- The normalization of the matched group (utils/github_client.py:118-126):
prepend the canonical origin according to the shorthand form, then
`rstrip('/')`. -/
def normalizeUrl (url : List Char) : List Char :=
  let u :=
    if ("http".toList).isPrefixOf url then url
    else if url.take 1 = ['@'] then ("https://linkedin.com/in/".toList) ++ url.tail
    else if ("in/".toList).isPrefixOf url then ("https://linkedin.com/".toList) ++ url
    else ("https://".toList) ++ url
  rstripSlash u

/-- The pattern-priority loop of `get_linkedin_from_github` over the assembled
`text_to_search`: the first pattern (in the fixed order full URL, bare domain,
`in/` shorthand, `@` shorthand) with a match anywhere decides the result. -/
def get_linkedin_from_github (text : List Char) : Option (List Char) :=
  match searchPat pat1At text with
  | some u => some (normalizeUrl u)
  | none =>
    match searchPat pat2At text with
    | some u => some (normalizeUrl u)
    | none =>
      match searchPat pat3At text with
      | some u => some (normalizeUrl u)
      | none =>
        match searchPat pat4At text with
        | some u => some (normalizeUrl u)
        | none => none

/-! ### Concrete instances used by the theorems -/

/-- A report whose whole text is the recommendation line with value `s`. -/
def mkReportContent (s : List Char) : List Char :=
  ("**Recommendation:** ".toList) ++ s

/-- The report path `candidates/cand/report.md`. -/
def rpC4 : List String := ["candidates", "cand", "report.md"]

/-- A store holding exactly the tier-`s` report at `rpC4`. -/
def fsTier (s : List Char) : FS := [⟨rpC4, mkReportContent s, 7⟩]

/-- `candidates/<bucket>/report.md` — where the router actually puts a file
named `report.md` (`folder / report_path.name`). -/
def bucketPath (b : String) : List String := ["candidates", b, "report.md"]

/-- The store after routing the tier-`s` report into bucket `b`. -/
def movedTier (s : List Char) (b : String) : FS :=
  [⟨bucketPath b, mkReportContent s, 7⟩]

/-- A report with no recommendation line. -/
def fsNoRec : FS := [⟨rpC4, ("Great profile, no verdict though.".toList), 7⟩]

def contentC2 : List Char := "**Recommendation:** Shortlist".toList

def fsC2 : FS := [⟨["candidates", "alice", "report.md"], contentC2, 5⟩]

def fsC2moved : FS := [⟨["candidates", "shortlist", "report.md"], contentC2, 5⟩]

def contentC6 : List Char := "**Recommendation:** Strongly Shortlist".toList

def entC6 : FileEnt := ⟨["candidates", "strongly_shortlist", "alice", "report.md"], contentC6, 0⟩

def fsC6 : FS := [entC6]

def textFullWww : List Char := "See https://www.linkedin.com/in/alice/ profile".toList

def textAt : List Char := "Contact: @alice".toList

def stW : St := ⟨[], .absent, 0⟩

def uW : User := ⟨"alice", "https://github.com/alice", 100⟩

def stP : St := ⟨[], .avail ["https://github.com/alice"], 0⟩

/-- The state after a successful evaluation of `uW` from `stW`: the report
landed at `candidates/shortlist/report.md` and the ledger holds the URL. -/
def stWdone : St :=
  ⟨[⟨["candidates", "shortlist", "report.md"], contentC2, 0⟩],
   .avail ["https://github.com/alice"], 1⟩

/-- A user whose account update time sits exactly on the recency cutoff for
`now = 100`. -/
def uBoundary : User := ⟨"bob", "https://github.com/bob", cutoffOf 100⟩

/-! ## Theorems -/

/-- C10: `is_candidate_processed` is a total function and a missing or
unreadable ledger file makes it answer `false` for every URL, so the
candidate is treated as unprocessed instead of aborting the run. -/
theorem C10_missing_ledger_unprocessed (url : String) :
    is_candidate_processed .absent url = false ∧
    is_candidate_processed .unreadable url = false := by
  refine ⟨?_, ?_⟩ <;> · unfold is_candidate_processed; split <;> rfl

/-- C10 witness. -/
theorem C10_missing_ledger_unprocessed_witness :
    is_candidate_processed .absent "https://github.com/alice" = false ∧
    is_candidate_processed .unreadable "https://github.com/alice" = false :=
  C10_missing_ledger_unprocessed "https://github.com/alice"

/-- C9: the claim says `analyze_candidate` with an empty `github_url`
completes without error; the code instead raises `UnboundLocalError`, because
`linkedin_url` is only assigned inside the skipped `if github_url:` block and
is then read at `if linkedin_url:` (analyze_candidate.py:20-27).  The final
path-segment identity extraction itself is as claimed, but the empty-URL
branch aborts. -/
theorem C9_empty_url_raises (fetch : String → Option GitHubData)
    (liFetch : String → Option LinkedInResult) (llmRes : Option (List Char)) :
    analyze_candidate fetch liFetch llmRes "" = .error .unboundLocalError := rfl

/-- C1: the claim says a failed code-hosting fetch (empty record `{}`) never
aborts `analyze_candidate`; the code instead raises `AttributeError` at
`github_data.get('profile').get('linkedin_url')` (analyze_candidate.py:24),
because `{}.get('profile')` is `None`.  So the run dies for every non-empty
URL whose fetch fails. -/
theorem C1_fetch_failure_raises (liFetch : String → Option LinkedInResult)
    (llmRes : Option (List Char)) (url : String) (h : ¬ url = "") :
    analyze_candidate (fun _ => none) liFetch llmRes url = .error .attributeError := by
  unfold analyze_candidate
  simp [h]

/-- C1 witness: a concrete unknown-identity URL. -/
theorem C1_fetch_failure_raises_witness :
    ¬ "https://github.com/ghost" = "" ∧
    analyze_candidate (fun _ => none) (fun _ => none) none "https://github.com/ghost"
      = .error .attributeError :=
  ⟨by decide, C1_fetch_failure_raises (fun _ => none) none "https://github.com/ghost" (by decide)⟩

/-- C5: a candidate whose canonical URL is already in the ledger is, without
forced reanalysis, skipped before anything happens: no adapter call, no
report, state (ledger and buckets) unchanged. -/
theorem C5_processed_skip (st : St) (u : User) (cutoff : Int)
    (engine : Option (List Char))
    (h : is_candidate_processed st.ledger u.html_url = true) :
    analyze_user st u false cutoff engine = .ok (st, none, []) := by
  unfold analyze_user
  simp [h]

/-- C5 witness. -/
theorem C5_processed_skip_witness :
    is_candidate_processed stP.ledger uW.html_url = true ∧
    analyze_user stP uW false 0 (some contentC2) = .ok (stP, none, []) :=
  ⟨by decide, C5_processed_skip stP uW 0 (some contentC2) (by decide)⟩

/-- C2: the claim (and the spec) put the moved report into a per-candidate
subfolder `candidates/<bucket>/<candidate>/report.md`, the layout the
projection's `*/report.md` glob reads.  The code moves the file to
`folder / report_path.name`, i.e. the flat `candidates/<bucket>/report.md`
(find_top_engineers.py:74), which the glob never matches, so every bucketed
report is invisible to `get_shortlisted_candidates` (and successive
candidates overwrite each other at the shared path). -/
theorem C2_flat_move_invisible_to_projection :
    move_report_to_status_folder fsC2 ["candidates", "alice", "report.md"]
      = .ok (fsC2moved, ["candidates", "shortlist", "report.md"]) ∧
    bucketFiles fsC2moved "shortlist" = [] ∧
    get_shortlisted_candidates fsC2moved = [] :=
  ⟨rfl, rfl, rfl⟩

/-- C6 counterexample: a report in a shortlist bucket whose whole text is
`**Recommendation:** Strongly Shortlist` is scanned by the projection but —
against the claim that an entry with the default fields is yielded — the
returned shortlist is empty: with no `**GitHub:**` label the key is `None`
and `if key:` drops the entry (find_top_engineers.py:129-131). -/
theorem C6_keyless_report_dropped :
    bucketFiles fsC6 "strongly_shortlist" = [entC6] ∧
    get_shortlisted_candidates fsC6 = [] :=
  ⟨rfl, rfl⟩

/-- C6 amended: the per-report field extraction does produce
name "Unknown", location "Unable to verify", linkedin "Unable to verify",
github "Unknown", evaluation_status "Strongly Shortlist" — but because the
GitHub label is absent the entry has no dict key and is omitted from the
projection's output. -/
theorem C6_field_defaults_but_dropped :
    candidateInfoOf contentC6 entC6.path 0 =
      ⟨"Unknown", "Unable to verify", "Unable to verify", "Unknown",
       "Strongly Shortlist", entC6.path, 0⟩ ∧
    labelOf "**GitHub:**" contentC6 = none ∧
    get_shortlisted_candidates fsC6 = [] :=
  ⟨rfl, rfl, rfl⟩

/-- C7 counterexample: two texts carrying the same handle in two supported
forms do not normalize to the same canonical URL — a matched full URL is
returned as written (minus trailing `/`), keeping its `www.` (and scheme),
while the `@` shorthand builds `https://linkedin.com/in/<handle>`
(utils/github_client.py:118-126). -/
theorem C7_full_url_form_differs :
    get_linkedin_from_github textFullWww = some ("https://www.linkedin.com/in/alice".toList) ∧
    get_linkedin_from_github textAt = some ("https://linkedin.com/in/alice".toList) ∧
    ("https://www.linkedin.com/in/alice".toList : List Char)
      ≠ ("https://linkedin.com/in/alice".toList : List Char) :=
  ⟨rfl, rfl, by decide⟩

/-- On a value with no leading whitespace and no newline, the
`\s*([^\n]+)` group after one space is the value itself. -/
theorem wsGroup_clean (s : List Char) (h1 : s.dropWhile isWsChar = s)
    (h2 : s.takeWhile (fun c => c ≠ '\n') = s) (hne : s ≠ []) :
    wsGroup (' ' :: s) = some s := by
  have hsp : isWsChar ' ' = true := rfl
  unfold wsGroup
  rw [List.dropWhile_cons, hsp]
  simp only [if_true, h1, h2]
  rw [if_neg]
  simp [List.isEmpty_iff, hne]

/-- The recommendation regex on a one-line report whose value is clean. -/
theorem findLabel_mkReportContent (s : List Char) (h1 : s.dropWhile isWsChar = s)
    (h2 : s.takeWhile (fun c => c ≠ '\n') = s) (hne : s ≠ []) :
    findLabel ("**Recommendation:**".toList) (mkReportContent s) = some s := by
  have step : findLabel ("**Recommendation:**".toList) (mkReportContent s)
      = (wsGroup (' ' :: s)).orElse
          (fun _ => findLabel ("**Recommendation:**".toList)
            ("*Recommendation:** ".toList ++ s)) := rfl
  rw [step, wsGroup_clean s h1 h2 hne]
  rfl

/-- C4: routing by recommendation tier, for any letter-case variant `s` of a
tier (any value with no surrounding whitespace and no newline, compared by
its lowercase form): `strongly shortlist` goes to the `strongly_shortlist`
bucket, `shortlist` to the `shortlist` bucket (the strongly-substring is
tested first), and `neutral`, `reject`, `strongly reject` to the `reject`
bucket; the stored report text, tier literal included, is the unchanged
original; a report with no recommendation line stays at its original path. -/
theorem C4_tier_routing (s : List Char) (h1 : s.dropWhile isWsChar = s)
    (h2 : s.takeWhile (fun c => c ≠ '\n') = s) (h3 : stripBoth s = s) :
    (toLowerL s = "strongly shortlist".toList →
      move_report_to_status_folder (fsTier s) rpC4
        = .ok (movedTier s "strongly_shortlist", bucketPath "strongly_shortlist")) ∧
    (toLowerL s = "shortlist".toList →
      move_report_to_status_folder (fsTier s) rpC4
        = .ok (movedTier s "shortlist", bucketPath "shortlist")) ∧
    ((toLowerL s = "neutral".toList ∨ toLowerL s = "reject".toList ∨
        toLowerL s = "strongly reject".toList) →
      move_report_to_status_folder (fsTier s) rpC4
        = .ok (movedTier s "reject", bucketPath "reject")) ∧
    move_report_to_status_folder fsNoRec rpC4 = .ok (fsNoRec, rpC4) := by
  have hne : ∀ (w : List Char), toLowerL s = w → w ≠ [] → s ≠ [] := by
    intro w hw hwne he
    rw [he] at hw
    exact hwne hw.symm
  refine ⟨?_, ?_, ?_, rfl⟩
  · intro ht
    have hB := findLabel_mkReportContent s h1 h2 (hne _ ht (by decide))
    unfold move_report_to_status_folder
    have hr : readFile (fsTier s) rpC4 = some (mkReportContent s) := rfl
    rw [hr]
    simp only [hB, h3, ht]
    rfl
  · intro ht
    have hB := findLabel_mkReportContent s h1 h2 (hne _ ht (by decide))
    unfold move_report_to_status_folder
    have hr : readFile (fsTier s) rpC4 = some (mkReportContent s) := rfl
    rw [hr]
    simp only [hB, h3, ht]
    rfl
  · intro ht
    rcases ht with ht | ht | ht <;>
    · have hB := findLabel_mkReportContent s h1 h2 (hne _ ht (by decide))
      unfold move_report_to_status_folder
      have hr : readFile (fsTier s) rpC4 = some (mkReportContent s) := rfl
      rw [hr]
      simp only [hB, h3, ht]
      rfl

/-- C4 witness: a mixed-case variant of each group, instantiating every
hypothesis at a concrete tier value. -/
theorem C4_tier_routing_witness :
    move_report_to_status_folder (fsTier ("sTrOngLy ShOrTlIsT".toList)) rpC4
      = .ok (movedTier ("sTrOngLy ShOrTlIsT".toList) "strongly_shortlist",
             bucketPath "strongly_shortlist") :=
  (C4_tier_routing ("sTrOngLy ShOrTlIsT".toList) (by decide) (by decide) (by decide)).1
    (by decide)

/-- C3: in every completed `analyze_user` call, a ledger entry is appended if
and only if a report file was written, the only possible action traces are
"nothing", "adapter fetch only", and "fetch, then report write, then ledger
append" (so the ledger write is strictly after the report write), and an
absent recommendation-engine result leaves the state (report store and
ledger) unchanged with no result, keeping the candidate eligible. -/
theorem C3_ledger_iff_report (st : St) (u : User) (force : Bool) (cutoff : Int)
    (engine : Option (List Char)) (st' : St) (res : Option AUResult) (evs : List Ev)
    (h : analyze_user st u force cutoff engine = .ok (st', res, evs)) :
    ((∃ p, Ev.reportWriteEv p ∈ evs) ↔ (∃ v, Ev.ledgerAppendEv v ∈ evs)) ∧
    (evs = [] ∨ evs = [.fetchEv] ∨
      evs = [.fetchEv,
             .reportWriteEv ["candidates", candidateName u.html_url, "report.md"],
             .ledgerAppendEv u.html_url]) ∧
    (engine = none → st' = st ∧ res = none) := by
  unfold analyze_user at h
  split at h
  next =>
    simp only [Except.ok.injEq, Prod.mk.injEq] at h
    obtain ⟨h1, h2, h3⟩ := h
    subst h1; subst h2; subst h3
    simp
  next =>
    split at h
    next =>
      simp only [Except.ok.injEq, Prod.mk.injEq] at h
      obtain ⟨h1, h2, h3⟩ := h
      subst h1; subst h2; subst h3
      simp
    next =>
      split at h
      next =>
        simp only [Except.ok.injEq, Prod.mk.injEq] at h
        obtain ⟨h1, h2, h3⟩ := h
        subst h1; subst h2; subst h3
        simp
      next a =>
        split at h
        next =>
          simp only [Except.ok.injEq, Prod.mk.injEq] at h
          obtain ⟨h1, h2, h3⟩ := h
          subst h1; subst h2; subst h3
          simp
        next rp hrp =>
          dsimp only [] at h
          split at h
          next => exact absurd h (by simp)
          next =>
            simp only [Except.ok.injEq, Prod.mk.injEq] at h
            obtain ⟨h1, h2, h3⟩ := h
            subst h1; subst h2; subst h3
            have hrp2 : rp = ["candidates", candidateName u.html_url, "report.md"] := by
              unfold get_report_path at hrp
              split at hrp
              next => exact absurd hrp (by simp)
              next =>
                simp only [Option.some.injEq] at hrp
                exact hrp.symm
            subst hrp2
            refine ⟨?_, ?_, ?_⟩
            · constructor
              · intro _
                exact ⟨u.html_url, by simp⟩
              · intro _
                exact ⟨["candidates", candidateName u.html_url, "report.md"], by simp⟩
            · right; right; rfl
            · intro hcon
              exact absurd hcon (by simp)

/-- C3 witness: a full successful evaluation from an empty state. -/
theorem C3_ledger_iff_report_witness :
    ((∃ p, Ev.reportWriteEv p ∈
        [Ev.fetchEv, Ev.reportWriteEv ["candidates", "alice", "report.md"],
         Ev.ledgerAppendEv "https://github.com/alice"]) ↔
      (∃ v, Ev.ledgerAppendEv v ∈
        [Ev.fetchEv, Ev.reportWriteEv ["candidates", "alice", "report.md"],
         Ev.ledgerAppendEv "https://github.com/alice"])) ∧
    ([Ev.fetchEv, Ev.reportWriteEv ["candidates", "alice", "report.md"],
      Ev.ledgerAppendEv "https://github.com/alice"] = ([] : List Ev) ∨
     [Ev.fetchEv, Ev.reportWriteEv ["candidates", "alice", "report.md"],
      Ev.ledgerAppendEv "https://github.com/alice"] = [Ev.fetchEv] ∨
     [Ev.fetchEv, Ev.reportWriteEv ["candidates", "alice", "report.md"],
      Ev.ledgerAppendEv "https://github.com/alice"] =
       [Ev.fetchEv,
        Ev.reportWriteEv ["candidates", candidateName uW.html_url, "report.md"],
        Ev.ledgerAppendEv uW.html_url]) ∧
    (some contentC2 = none → stWdone = stW ∧
      (some (⟨"alice", "https://github.com/alice", contentC2⟩ : AUResult)) = none) := by
  have h := C3_ledger_iff_report stW uW false 0 (some contentC2) stWdone
    (some ⟨"alice", "https://github.com/alice", contentC2⟩)
    [Ev.fetchEv, Ev.reportWriteEv ["candidates", "alice", "report.md"],
     Ev.ledgerAppendEv "https://github.com/alice"] (by rfl)
  exact h

/-- C8: the discovery recency gate.  `CUTOFF_DAYS` is 90; in every completed
`analyze_user` call the adapter is only invoked when the account's last
update lies at or after `now - 90 days` (so "within the trailing window",
with an inclusive boundary); an account strictly older than the cutoff that
was not already skipped by the ledger is passed over with no state change —
in particular it is not marked processed; and an account exactly at the
cutoff deterministically passes the gate (the boundary comparison is the
fixed `user_updated < cutoff`, a function of the timestamp alone, so equal
timestamps are handled identically). -/
theorem C8_recency_gate :
    CUTOFF_DAYS = 90 ∧
    ∀ (now : Int) (st : St) (u : User) (force : Bool) (engine : Option (List Char))
      (st' : St) (res : Option AUResult) (evs : List Ev),
      analyze_user st u force (cutoffOf now) engine = .ok (st', res, evs) →
      (Ev.fetchEv ∈ evs → cutoffOf now ≤ u.updated_at) ∧
      (u.updated_at < cutoffOf now →
        (force = true ∨ is_candidate_processed st.ledger u.html_url = false) →
        st' = st ∧ res = none ∧ evs = []) ∧
      (u.updated_at = cutoffOf now →
        (force = true ∨ is_candidate_processed st.ledger u.html_url = false) →
        Ev.fetchEv ∈ evs) := by
  refine ⟨rfl, ?_⟩
  intro now st u force engine st' res evs h
  unfold analyze_user at h
  split at h
  next hskip =>
    simp only [Bool.and_eq_true, Bool.not_eq_eq_eq_not, Bool.not_true] at hskip
    simp only [Except.ok.injEq, Prod.mk.injEq] at h
    obtain ⟨h1, h2, h3⟩ := h
    subst h1; subst h2; subst h3
    refine ⟨by simp, fun _ _ => ⟨rfl, rfl, rfl⟩, ?_⟩
    intro _ hnp
    rcases hnp with hf | hp
    · rw [hf] at hskip
      exact absurd hskip.1 (by simp)
    · rw [hp] at hskip
      exact absurd hskip.2 (by simp)
  next =>
    split at h
    next hrec =>
      simp only [Except.ok.injEq, Prod.mk.injEq] at h
      obtain ⟨h1, h2, h3⟩ := h
      subst h1; subst h2; subst h3
      refine ⟨by simp, fun _ _ => ⟨rfl, rfl, rfl⟩, ?_⟩
      intro hb _
      exact absurd (hb ▸ hrec) (lt_irrefl _)
    next hrec =>
      have hge : cutoffOf now ≤ u.updated_at := not_lt.mp hrec
      have hfetch : Ev.fetchEv ∈ evs := by
        split at h
        next =>
          simp only [Except.ok.injEq, Prod.mk.injEq] at h
          obtain ⟨h1, h2, h3⟩ := h
          subst h3; simp
        next =>
          split at h
          next =>
            simp only [Except.ok.injEq, Prod.mk.injEq] at h
            obtain ⟨h1, h2, h3⟩ := h
            subst h3; simp
          next =>
            dsimp only [] at h
            split at h
            next => exact absurd h (by simp)
            next =>
              simp only [Except.ok.injEq, Prod.mk.injEq] at h
              obtain ⟨h1, h2, h3⟩ := h
              subst h3; simp
      exact ⟨fun _ => hge, fun hlt _ => absurd hlt hrec, fun _ _ => hfetch⟩

/-- C8 witness: a candidate exactly at the boundary, from an absent ledger,
passes the gate (the adapter is invoked). -/
theorem C8_recency_gate_witness :
    Ev.fetchEv ∈ ([Ev.fetchEv] : List Ev) ∧ cutoffOf 100 ≤ uBoundary.updated_at := by
  have h := C8_recency_gate.2 100 stW uBoundary false none stW none [Ev.fetchEv] (by rfl)
  exact ⟨h.2.2 rfl (Or.inr rfl), h.1 (by simp)⟩


/-! ### Character and pattern lemmas for the link-discovery theorem -/

/-- `Char.ofNat` round-trips on valid code points. -/
theorem toNat_ofNat_valid {n : Nat} (h : n.isValidChar) : (Char.ofNat n).toNat = n := by
  unfold Char.ofNat
  rw [dif_pos h]
  rfl

/-- A `[a-zA-Z0-9\-_%]` character never lowers to `':'`, `'.'` or `'/'`
(so handle characters can satisfy no literal piece of the URL patterns that
contains one of these). -/
theorem lcClass_toLower_ne (c : Char) (hc : lcClass c = true) :
    c.toLower ≠ ':' ∧ c.toLower ≠ '.' ∧ c.toLower ≠ '/' := by
  unfold lcClass at hc
  simp only [Bool.or_eq_true, Bool.and_eq_true, decide_eq_true_eq, or_assoc] at hc
  rcases hc with ⟨h1, h2⟩ | ⟨h1, h2⟩ | ⟨h1, h2⟩ | h | h | h
  · have ha : 97 ≤ c.toNat := h1
    have hid : c.toLower = c := by
      unfold Char.toLower
      rw [if_neg (by omega : ¬(c.toNat ≥ 65 ∧ c.toNat ≤ 90))]
    rw [hid]
    exact ⟨fun he => absurd (he ▸ ha) (by decide), fun he => absurd (he ▸ ha) (by decide),
      fun he => absurd (he ▸ ha) (by decide)⟩
  · have ha : 65 ≤ c.toNat := h1
    have hz : c.toNat ≤ 90 := h2
    have hv : (c.toNat + 32).isValidChar := Or.inl (by omega)
    have hlow : c.toLower = Char.ofNat (c.toNat + 32) := by
      unfold Char.toLower
      rw [if_pos ⟨h1, h2⟩]
    refine ⟨?_, ?_, ?_⟩
    · intro he
      rw [hlow] at he
      have hn := congrArg Char.toNat he
      rw [toNat_ofNat_valid hv, show Char.toNat ':' = 58 from rfl] at hn
      omega
    · intro he
      rw [hlow] at he
      have hn := congrArg Char.toNat he
      rw [toNat_ofNat_valid hv, show Char.toNat '.' = 46 from rfl] at hn
      omega
    · intro he
      rw [hlow] at he
      have hn := congrArg Char.toNat he
      rw [toNat_ofNat_valid hv, show Char.toNat '/' = 47 from rfl] at hn
      omega
  · have ha : 48 ≤ c.toNat := h1
    have hz : c.toNat ≤ 57 := h2
    have hid : c.toLower = c := by
      unfold Char.toLower
      rw [if_neg (by omega : ¬(c.toNat ≥ 65 ∧ c.toNat ≤ 90))]
    rw [hid]
    exact ⟨fun he => absurd (he ▸ hz) (by decide), fun he => absurd (he ▸ ha) (by decide),
      fun he => absurd (he ▸ ha) (by decide)⟩
  · subst h; exact ⟨by decide, by decide, by decide⟩
  · subst h; exact ⟨by decide, by decide, by decide⟩
  · subst h; exact ⟨by decide, by decide, by decide⟩

/-- A successful `ciTake` splits the text. -/
theorem ciTake_append_eq :
    ∀ (pat l m r : List Char), ciTake pat l = some (m, r) → l = m ++ r := by
  intro pat
  induction pat with
  | nil =>
    intro l m r hp
    unfold ciTake at hp
    simp only [Option.some.injEq, Prod.mk.injEq] at hp
    obtain ⟨hm, hr⟩ := hp
    subst hm; subst hr
    rfl
  | cons p ps ih =>
    intro l m r hp
    cases l with
    | nil => exact absurd hp (by simp [ciTake])
    | cons c cs =>
      unfold ciTake at hp
      split at hp
      next =>
        cases hrec : ciTake ps cs with
        | none => rw [hrec] at hp; exact absurd hp (by simp)
        | some pr =>
          obtain ⟨m1, r1⟩ := pr
          rw [hrec] at hp
          simp only [Option.map_some', Option.some.injEq, Prod.mk.injEq] at hp
          obtain ⟨hm, hr⟩ := hp
          subst hm; subst hr
          rw [ih cs m1 r1 hrec]
          rfl
      next => exact absurd hp (by simp)

/-- A successful `ciTake` matches the pattern up to lowercase. -/
theorem ciTake_lower :
    ∀ (pat l m r : List Char), ciTake pat l = some (m, r) →
      m.map Char.toLower = pat.map Char.toLower := by
  intro pat
  induction pat with
  | nil =>
    intro l m r hp
    unfold ciTake at hp
    simp only [Option.some.injEq, Prod.mk.injEq] at hp
    obtain ⟨hm, hr⟩ := hp
    subst hm
    rfl
  | cons p ps ih =>
    intro l m r hp
    cases l with
    | nil => exact absurd hp (by simp [ciTake])
    | cons c cs =>
      unfold ciTake at hp
      split at hp
      next hbeq =>
        cases hrec : ciTake ps cs with
        | none => rw [hrec] at hp; exact absurd hp (by simp)
        | some pr =>
          obtain ⟨m1, r1⟩ := pr
          rw [hrec] at hp
          simp only [Option.map_some', Option.some.injEq, Prod.mk.injEq] at hp
          obtain ⟨hm, hr⟩ := hp
          subst hm
          have hcl : c.toLower = p.toLower := by
            have := hbeq
            simpa [beq_iff_eq] using this
          simp only [List.map_cons, hcl, ih cs m1 r1 hrec]
      next => exact absurd hp (by simp)

/-- A full-URL match needs a character lowering to `':'` (from `"://"`). -/
theorem pat1At_colon (l g : List Char) (hp : pat1At l = some g) :
    ∃ c ∈ l, c.toLower = ':' := by
  unfold pat1At at hp
  cases h1 : ciTake ("http".toList) l with
  | none => rw [h1] at hp; exact absurd hp (by simp)
  | some pr1 =>
    obtain ⟨m1, r1⟩ := pr1
    rw [h1] at hp
    dsimp only [] at hp
    have hl1 : l = m1 ++ r1 := ciTake_append_eq _ _ _ _ h1
    cases h2 : ciTake (['s']) r1 with
    | some pr2 =>
      obtain ⟨a, b⟩ := pr2
      rw [h2] at hp
      dsimp only [] at hp
      have hr1 : r1 = a ++ b := ciTake_append_eq _ _ _ _ h2
      cases h3 : ciTake ("://".toList) b with
      | none => rw [h3] at hp; exact absurd hp (by simp)
      | some pr3 =>
        obtain ⟨m3, r3⟩ := pr3
        have hb : b = m3 ++ r3 := ciTake_append_eq _ _ _ _ h3
        have hm3 : m3.map Char.toLower = ("://".toList).map Char.toLower :=
          ciTake_lower _ _ _ _ h3
        have hcmem : ':' ∈ m3.map Char.toLower := by rw [hm3]; decide
        obtain ⟨c, hc, hlow⟩ := List.mem_map.mp hcmem
        refine ⟨c, ?_, hlow⟩
        rw [hl1, hr1, hb]
        simp [hc]
    | none =>
      rw [h2] at hp
      dsimp only [] at hp
      cases h3 : ciTake ("://".toList) r1 with
      | none => rw [h3] at hp; exact absurd hp (by simp)
      | some pr3 =>
        obtain ⟨m3, r3⟩ := pr3
        have hb : r1 = m3 ++ r3 := ciTake_append_eq _ _ _ _ h3
        have hm3 : m3.map Char.toLower = ("://".toList).map Char.toLower :=
          ciTake_lower _ _ _ _ h3
        have hcmem : ':' ∈ m3.map Char.toLower := by rw [hm3]; decide
        obtain ⟨c, hc, hlow⟩ := List.mem_map.mp hcmem
        refine ⟨c, ?_, hlow⟩
        rw [hl1, hb]
        simp [hc]

/-- A bare-domain match needs a character lowering to `'.'`. -/
theorem pat2At_dot (l g : List Char) (hp : pat2At l = some g) :
    ∃ c ∈ l, c.toLower = '.' := by
  unfold pat2At at hp
  cases h1 : ciTake ("linkedin.com/in/".toList) l with
  | none => rw [h1] at hp; exact absurd hp (by simp)
  | some pr =>
    obtain ⟨m, r⟩ := pr
    have hl : l = m ++ r := ciTake_append_eq _ _ _ _ h1
    have hm : m.map Char.toLower = ("linkedin.com/in/".toList).map Char.toLower :=
      ciTake_lower _ _ _ _ h1
    have hcmem : '.' ∈ m.map Char.toLower := by rw [hm]; decide
    obtain ⟨c, hc, hlow⟩ := List.mem_map.mp hcmem
    exact ⟨c, by rw [hl]; exact List.mem_append.mpr (Or.inl hc), hlow⟩

/-- An `in/` match needs a character lowering to `'/'`. -/
theorem pat3At_slash (l g : List Char) (hp : pat3At l = some g) :
    ∃ c ∈ l, c.toLower = '/' := by
  unfold pat3At at hp
  cases h1 : ciTake ("in/".toList) l with
  | none => rw [h1] at hp; exact absurd hp (by simp)
  | some pr =>
    obtain ⟨m, r⟩ := pr
    have hl : l = m ++ r := ciTake_append_eq _ _ _ _ h1
    have hm : m.map Char.toLower = ("in/".toList).map Char.toLower :=
      ciTake_lower _ _ _ _ h1
    have hcmem : '/' ∈ m.map Char.toLower := by rw [hm]; decide
    obtain ⟨c, hc, hlow⟩ := List.mem_map.mp hcmem
    exact ⟨c, by rw [hl]; exact List.mem_append.mpr (Or.inl hc), hlow⟩

/-- `re.search` finds nothing when the pattern needs a character the text
nowhere provides. -/
theorem searchPat_eq_none (f : List Char → Option (List Char)) (Q : Char → Prop)
    (hf : ∀ l g, f l = some g → ∃ c ∈ l, Q c) :
    ∀ text : List Char, (∀ c ∈ text, ¬ Q c) → searchPat f text = none := by
  intro text
  induction text with
  | nil => intro _; rfl
  | cons c t ih =>
    intro hq
    unfold searchPat
    cases hfc : f (c :: t) with
    | some g =>
      obtain ⟨d, hd, hQd⟩ := hf _ _ hfc
      exact absurd hQd (hq d hd)
    | none =>
      exact ih (fun d hd => hq d (List.mem_cons_of_mem c hd))

/-- `re.search` succeeds at the head position. -/
theorem searchPat_cons_of_some (f : List Char → Option (List Char)) (c : Char)
    (t g : List Char) (hc : f (c :: t) = some g) : searchPat f (c :: t) = some g := by
  unfold searchPat
  rw [hc]
  rfl

/-- `takeWhile` runs through a block that satisfies the predicate. -/
theorem takeWhile_append_all (p : Char → Bool) :
    ∀ (l rest : List Char), (∀ c ∈ l, p c = true) →
      (l ++ rest).takeWhile p = l ++ rest.takeWhile p := by
  intro l rest
  induction l with
  | nil => intro _; rfl
  | cons c t ih =>
    intro hall
    rw [List.cons_append, List.takeWhile_cons, hall c (List.mem_cons_self c t)]
    simp [ih (fun d hd => hall d (List.mem_cons_of_mem c hd))]

/-- `[a-zA-Z0-9\-_%]+` greedily takes a whole handle at the end of the text. -/
theorem classRun_full (h : List Char) (hne : h ≠ [])
    (hall : ∀ c ∈ h, lcClass c = true) : classRun h = some (h, []) := by
  have ht : h.takeWhile lcClass = h := by
    have := takeWhile_append_all lcClass h [] hall
    simpa using this
  unfold classRun
  simp [ht, List.isEmpty_iff, hne, List.drop_length]

/-- `[a-zA-Z0-9\-_%]+` stops at a `'/'` after the handle. -/
theorem classRun_class_slash (h : List Char) (hne : h ≠ [])
    (hall : ∀ c ∈ h, lcClass c = true) : classRun (h ++ ['/']) = some (h, ['/']) := by
  have ht : (h ++ ['/']).takeWhile lcClass = h := by
    have := takeWhile_append_all lcClass h ['/'] hall
    rw [show List.takeWhile lcClass ['/'] = ([] : List Char) from rfl] at this
    simpa using this
  unfold classRun
  simp [ht, List.isEmpty_iff, hne, List.drop_left]

/-- `rstrip('/')` keeps a string ending in a handle character unchanged. -/
theorem rstripSlash_class_end (l h : List Char) (hne : h ≠ [])
    (hall : ∀ c ∈ h, lcClass c = true) : rstripSlash (l ++ h) = l ++ h := by
  have hrne : h.reverse ≠ [] := by simpa using hne
  obtain ⟨c, t, hct⟩ := List.exists_cons_of_ne_nil hrne
  have hcmem : c ∈ h := by
    have : c ∈ h.reverse := by rw [hct]; exact List.mem_cons_self c t
    simpa using this
  have hcslash : c ≠ '/' := by
    intro he
    subst he
    exact absurd (hall '/' hcmem) (by decide)
  have hdrop : ((l ++ h).reverse).dropWhile (fun x => x = '/') = (l ++ h).reverse := by
    rw [List.reverse_append, hct, List.cons_append, List.dropWhile_cons]
    simp [hcslash]
  unfold rstripSlash
  rw [hdrop, List.reverse_reverse]

/-- `rstrip('/')` removes a single trailing separator after a handle. -/
theorem rstripSlash_class_slash (l h : List Char) (hne : h ≠ [])
    (hall : ∀ c ∈ h, lcClass c = true) : rstripSlash (l ++ (h ++ ['/'])) = l ++ h := by
  have hrne : h.reverse ≠ [] := by simpa using hne
  obtain ⟨c, t, hct⟩ := List.exists_cons_of_ne_nil hrne
  have hcmem : c ∈ h := by
    have : c ∈ h.reverse := by rw [hct]; exact List.mem_cons_self c t
    simpa using this
  have hcslash : c ≠ '/' := by
    intro he
    subst he
    exact absurd (hall '/' hcmem) (by decide)
  have hdrop : ((l ++ (h ++ ['/'])).reverse).dropWhile (fun x => x = '/')
      = (l ++ h).reverse := by
    rw [List.reverse_append, List.reverse_append, hct, List.reverse_append, hct]
    simp [List.dropWhile_cons, hcslash]
  unfold rstripSlash
  rw [hdrop, List.reverse_reverse]

/-- The bare-domain pattern takes a whole well-formed handle. -/
theorem pat2At_handle (h : List Char) (hne : h ≠ [])
    (hall : ∀ c ∈ h, lcClass c = true) :
    pat2At ("linkedin.com/in/".toList ++ h) = some ("linkedin.com/in/".toList ++ h) := by
  have hct : ciTake ("linkedin.com/in/".toList) ("linkedin.com/in/".toList ++ h)
      = some ("linkedin.com/in/".toList, h) := rfl
  unfold pat2At
  rw [hct]
  simp [classRun_full h hne hall, optSlash]

/-- The `in/` pattern takes a whole well-formed handle. -/
theorem pat3At_handle (h : List Char) (hne : h ≠ [])
    (hall : ∀ c ∈ h, lcClass c = true) :
    pat3At ("in/".toList ++ h) = some ("in/".toList ++ h) := by
  have hct : ciTake ("in/".toList) ("in/".toList ++ h) = some ("in/".toList, h) := rfl
  unfold pat3At
  rw [hct]
  simp [classRun_full h hne hall, optSlash]

/-- The `@` pattern takes a whole well-formed handle. -/
theorem pat4At_handle (h : List Char) (hne : h ≠ [])
    (hall : ∀ c ∈ h, lcClass c = true) : pat4At ('@' :: h) = some ('@' :: h) := by
  unfold pat4At
  simp [classRun_full h hne hall]

/-- The full-URL pattern matches the canonical spelling with any handle. -/
theorem pat1At_handle (h : List Char) (hne : h ≠ [])
    (hall : ∀ c ∈ h, lcClass c = true) :
    pat1At ("https://linkedin.com/in/".toList ++ h)
      = some ("https://linkedin.com/in/".toList ++ h) := by
  have h1 : ciTake ("http".toList) ("https://linkedin.com/in/".toList ++ h)
      = some ("http".toList, "s://linkedin.com/in/".toList ++ h) := rfl
  have h2 : ciTake (['s']) ("s://linkedin.com/in/".toList ++ h)
      = some (['s'], "://linkedin.com/in/".toList ++ h) := rfl
  have h3 : ciTake ("://".toList) ("://linkedin.com/in/".toList ++ h)
      = some ("://".toList, "linkedin.com/in/".toList ++ h) := rfl
  have h4 : ciTake ("www.".toList) ("linkedin.com/in/".toList ++ h) = none := rfl
  have h5 : ciTake ("linkedin.com/in/".toList) ("linkedin.com/in/".toList ++ h)
      = some ("linkedin.com/in/".toList, h) := rfl
  unfold pat1At
  rw [h1]
  dsimp only []
  rw [h2]
  dsimp only []
  rw [h3]
  dsimp only []
  rw [h4]
  dsimp only []
  rw [h5]
  dsimp only []
  rw [classRun_full h hne hall]
  simp [optSlash]

/-- The full-URL pattern also consumes a trailing separator after the handle. -/
theorem pat1At_handle_slash (h : List Char) (hne : h ≠ [])
    (hall : ∀ c ∈ h, lcClass c = true) :
    pat1At ("https://linkedin.com/in/".toList ++ (h ++ ['/']))
      = some ("https://linkedin.com/in/".toList ++ (h ++ ['/'])) := by
  have h1 : ciTake ("http".toList) ("https://linkedin.com/in/".toList ++ (h ++ ['/']))
      = some ("http".toList, "s://linkedin.com/in/".toList ++ (h ++ ['/'])) := rfl
  have h2 : ciTake (['s']) ("s://linkedin.com/in/".toList ++ (h ++ ['/']))
      = some (['s'], "://linkedin.com/in/".toList ++ (h ++ ['/'])) := rfl
  have h3 : ciTake ("://".toList) ("://linkedin.com/in/".toList ++ (h ++ ['/']))
      = some ("://".toList, "linkedin.com/in/".toList ++ (h ++ ['/'])) := rfl
  have h4 : ciTake ("www.".toList) ("linkedin.com/in/".toList ++ (h ++ ['/'])) = none := rfl
  have h5 : ciTake ("linkedin.com/in/".toList) ("linkedin.com/in/".toList ++ (h ++ ['/']))
      = some ("linkedin.com/in/".toList, h ++ ['/']) := rfl
  unfold pat1At
  rw [h1]
  dsimp only []
  rw [h2]
  dsimp only []
  rw [h3]
  dsimp only []
  rw [h4]
  dsimp only []
  rw [h5]
  dsimp only []
  rw [classRun_class_slash h hne hall]
  simp [optSlash]


/-- C7 amended: for every nonempty handle over `[a-zA-Z0-9\-_%]`, a text that
is exactly the lowercase-written bare-domain form `linkedin.com/in/<handle>`,
the `in/<handle>` form, or the `@<handle>` form normalizes to the same
canonical `https://linkedin.com/in/<handle>`; the canonical full URL
`https://linkedin.com/in/<handle>` — also with a trailing separator, which is
stripped — returns `https://linkedin.com/in/<handle>`; any other spelling of
a matched group is kept as written by the exact-case `startswith` tests, so a
full URL keeps its scheme and `www.` (the counterexample) and even a case
variant of a shorthand such as `IN/<handle>` escapes canonicalization,
normalizing to `https://IN/<handle>`; and the pattern priority full URL >
bare domain > `in/` > `@` decides even when a lower-priority form occurs
earlier in the text, shown for each adjacent pair of priorities. -/
theorem C7_shorthand_canonicalization (h : List Char) (hne : h ≠ [])
    (hall : ∀ c ∈ h, lcClass c = true) :
    (get_linkedin_from_github ("linkedin.com/in/".toList ++ h)
      = some ("https://linkedin.com/in/".toList ++ h)) ∧
    (get_linkedin_from_github ("in/".toList ++ h)
      = some ("https://linkedin.com/in/".toList ++ h)) ∧
    (get_linkedin_from_github ('@' :: h)
      = some ("https://linkedin.com/in/".toList ++ h)) ∧
    (get_linkedin_from_github ("https://linkedin.com/in/".toList ++ h)
      = some ("https://linkedin.com/in/".toList ++ h)) ∧
    (get_linkedin_from_github ("https://linkedin.com/in/".toList ++ (h ++ ['/']))
      = some ("https://linkedin.com/in/".toList ++ h)) ∧
    (get_linkedin_from_github ("IN/alice".toList) = some ("https://IN/alice".toList)) ∧
    (get_linkedin_from_github ("linkedin.com/in/bob https://linkedin.com/in/".toList ++ h)
      = some ("https://linkedin.com/in/".toList ++ h)) ∧
    (get_linkedin_from_github ("in/bob linkedin.com/in/".toList ++ h)
      = some ("https://linkedin.com/in/".toList ++ h)) ∧
    (get_linkedin_from_github ("@bob and in/".toList ++ h)
      = some ("https://linkedin.com/in/".toList ++ h)) := by
  refine ⟨?_, ?_, ?_, ?_, ?_, rfl, ?_, ?_, ?_⟩
  · -- bare domain, standing alone
    have hn1 : searchPat pat1At ("linkedin.com/in/".toList ++ h) = none :=
      searchPat_eq_none pat1At (fun c => c.toLower = ':') pat1At_colon _
        (by
          intro c hc
          rcases List.mem_append.mp hc with hc | hc
          · exact (by decide : ∀ c ∈ "linkedin.com/in/".toList, ¬ c.toLower = ':') c hc
          · exact (lcClass_toLower_ne c (hall c hc)).1)
    have hs2 : searchPat pat2At ("linkedin.com/in/".toList ++ h)
        = some ("linkedin.com/in/".toList ++ h) :=
      searchPat_cons_of_some pat2At 'l' ("inkedin.com/in/".toList ++ h) _
        (pat2At_handle h hne hall)
    unfold get_linkedin_from_github
    simp only [hn1, hs2]
    rw [show normalizeUrl ("linkedin.com/in/".toList ++ h)
          = rstripSlash ("https://linkedin.com/in/".toList ++ h) from rfl]
    rw [rstripSlash_class_end ("https://linkedin.com/in/".toList) h hne hall]
  · -- in/ shorthand, standing alone
    have hn1 : searchPat pat1At ("in/".toList ++ h) = none :=
      searchPat_eq_none pat1At (fun c => c.toLower = ':') pat1At_colon _
        (by
          intro c hc
          rcases List.mem_append.mp hc with hc | hc
          · exact (by decide : ∀ c ∈ "in/".toList, ¬ c.toLower = ':') c hc
          · exact (lcClass_toLower_ne c (hall c hc)).1)
    have hn2 : searchPat pat2At ("in/".toList ++ h) = none :=
      searchPat_eq_none pat2At (fun c => c.toLower = '.') pat2At_dot _
        (by
          intro c hc
          rcases List.mem_append.mp hc with hc | hc
          · exact (by decide : ∀ c ∈ "in/".toList, ¬ c.toLower = '.') c hc
          · exact (lcClass_toLower_ne c (hall c hc)).2.1)
    have hs3 : searchPat pat3At ("in/".toList ++ h) = some ("in/".toList ++ h) :=
      searchPat_cons_of_some pat3At 'i' ("n/".toList ++ h) _ (pat3At_handle h hne hall)
    unfold get_linkedin_from_github
    simp only [hn1, hn2, hs3]
    rw [show normalizeUrl ("in/".toList ++ h)
          = rstripSlash ("https://linkedin.com/in/".toList ++ h) from by
      obtain ⟨c0, t0, rfl⟩ := List.exists_cons_of_ne_nil hne
      rfl]
    rw [rstripSlash_class_end ("https://linkedin.com/in/".toList) h hne hall]
  · -- @ shorthand, standing alone
    have hn1 : searchPat pat1At ('@' :: h) = none :=
      searchPat_eq_none pat1At (fun c => c.toLower = ':') pat1At_colon _
        (by
          intro c hc
          rcases List.mem_cons.mp hc with rfl | hc
          · decide
          · exact (lcClass_toLower_ne c (hall c hc)).1)
    have hn2 : searchPat pat2At ('@' :: h) = none :=
      searchPat_eq_none pat2At (fun c => c.toLower = '.') pat2At_dot _
        (by
          intro c hc
          rcases List.mem_cons.mp hc with rfl | hc
          · decide
          · exact (lcClass_toLower_ne c (hall c hc)).2.1)
    have hn3 : searchPat pat3At ('@' :: h) = none :=
      searchPat_eq_none pat3At (fun c => c.toLower = '/') pat3At_slash _
        (by
          intro c hc
          rcases List.mem_cons.mp hc with rfl | hc
          · decide
          · exact (lcClass_toLower_ne c (hall c hc)).2.2)
    have hs4 : searchPat pat4At ('@' :: h) = some ('@' :: h) :=
      searchPat_cons_of_some pat4At '@' h _ (pat4At_handle h hne hall)
    unfold get_linkedin_from_github
    simp only [hn1, hn2, hn3, hs4]
    rw [show normalizeUrl ('@' :: h)
          = rstripSlash ("https://linkedin.com/in/".toList ++ h) from rfl]
    rw [rstripSlash_class_end ("https://linkedin.com/in/".toList) h hne hall]
  · -- canonical full URL
    have hs1 : searchPat pat1At ("https://linkedin.com/in/".toList ++ h)
        = some ("https://linkedin.com/in/".toList ++ h) :=
      searchPat_cons_of_some pat1At 'h' ("ttps://linkedin.com/in/".toList ++ h) _
        (pat1At_handle h hne hall)
    unfold get_linkedin_from_github
    simp only [hs1]
    rw [show normalizeUrl ("https://linkedin.com/in/".toList ++ h)
          = rstripSlash ("https://linkedin.com/in/".toList ++ h) from rfl]
    rw [rstripSlash_class_end ("https://linkedin.com/in/".toList) h hne hall]
  · -- canonical full URL with trailing separator
    have hs1 : searchPat pat1At ("https://linkedin.com/in/".toList ++ (h ++ ['/']))
        = some ("https://linkedin.com/in/".toList ++ (h ++ ['/'])) :=
      searchPat_cons_of_some pat1At 'h' ("ttps://linkedin.com/in/".toList ++ (h ++ ['/'])) _
        (pat1At_handle_slash h hne hall)
    unfold get_linkedin_from_github
    simp only [hs1]
    rw [show normalizeUrl ("https://linkedin.com/in/".toList ++ (h ++ ['/']))
          = rstripSlash ("https://linkedin.com/in/".toList ++ (h ++ ['/'])) from rfl]
    rw [rstripSlash_class_slash ("https://linkedin.com/in/".toList) h hne hall]
  · -- priority: an earlier bare-domain occurrence loses to a full URL
    have hs1 : searchPat pat1At
          ("linkedin.com/in/bob https://linkedin.com/in/".toList ++ h)
        = some ("https://linkedin.com/in/".toList ++ h) :=
      (rfl :
          searchPat pat1At ("linkedin.com/in/bob https://linkedin.com/in/".toList ++ h)
            = searchPat pat1At ("https://linkedin.com/in/".toList ++ h)).trans
        (searchPat_cons_of_some pat1At 'h' ("ttps://linkedin.com/in/".toList ++ h) _
          (pat1At_handle h hne hall))
    unfold get_linkedin_from_github
    simp only [hs1]
    rw [show normalizeUrl ("https://linkedin.com/in/".toList ++ h)
          = rstripSlash ("https://linkedin.com/in/".toList ++ h) from rfl]
    rw [rstripSlash_class_end ("https://linkedin.com/in/".toList) h hne hall]
  · -- priority: an earlier in/ occurrence loses to a bare domain
    have hn1 : searchPat pat1At ("in/bob linkedin.com/in/".toList ++ h) = none :=
      searchPat_eq_none pat1At (fun c => c.toLower = ':') pat1At_colon _
        (by
          intro c hc
          rcases List.mem_append.mp hc with hc | hc
          · exact (by decide : ∀ c ∈ "in/bob linkedin.com/in/".toList,
              ¬ c.toLower = ':') c hc
          · exact (lcClass_toLower_ne c (hall c hc)).1)
    have hs2 : searchPat pat2At ("in/bob linkedin.com/in/".toList ++ h)
        = some ("linkedin.com/in/".toList ++ h) :=
      (rfl :
          searchPat pat2At ("in/bob linkedin.com/in/".toList ++ h)
            = searchPat pat2At ("linkedin.com/in/".toList ++ h)).trans
        (searchPat_cons_of_some pat2At 'l' ("inkedin.com/in/".toList ++ h) _
          (pat2At_handle h hne hall))
    unfold get_linkedin_from_github
    simp only [hn1, hs2]
    rw [show normalizeUrl ("linkedin.com/in/".toList ++ h)
          = rstripSlash ("https://linkedin.com/in/".toList ++ h) from rfl]
    rw [rstripSlash_class_end ("https://linkedin.com/in/".toList) h hne hall]
  · -- priority: an earlier @ occurrence loses to an in/ form
    have hn1 : searchPat pat1At ("@bob and in/".toList ++ h) = none :=
      searchPat_eq_none pat1At (fun c => c.toLower = ':') pat1At_colon _
        (by
          intro c hc
          rcases List.mem_append.mp hc with hc | hc
          · exact (by decide : ∀ c ∈ "@bob and in/".toList, ¬ c.toLower = ':') c hc
          · exact (lcClass_toLower_ne c (hall c hc)).1)
    have hn2 : searchPat pat2At ("@bob and in/".toList ++ h) = none :=
      searchPat_eq_none pat2At (fun c => c.toLower = '.') pat2At_dot _
        (by
          intro c hc
          rcases List.mem_append.mp hc with hc | hc
          · exact (by decide : ∀ c ∈ "@bob and in/".toList, ¬ c.toLower = '.') c hc
          · exact (lcClass_toLower_ne c (hall c hc)).2.1)
    have hs3 : searchPat pat3At ("@bob and in/".toList ++ h)
        = some ("in/".toList ++ h) :=
      (rfl :
          searchPat pat3At ("@bob and in/".toList ++ h)
            = searchPat pat3At ("in/".toList ++ h)).trans
        (searchPat_cons_of_some pat3At 'i' ("n/".toList ++ h) _
          (pat3At_handle h hne hall))
    unfold get_linkedin_from_github
    simp only [hn1, hn2, hs3]
    rw [show normalizeUrl ("in/".toList ++ h)
          = rstripSlash ("https://linkedin.com/in/".toList ++ h) from by
      obtain ⟨c0, t0, rfl⟩ := List.exists_cons_of_ne_nil hne
      rfl]
    rw [rstripSlash_class_end ("https://linkedin.com/in/".toList) h hne hall]

/-- C7 witness: the amended theorem at the concrete handle `alice`. -/
theorem C7_shorthand_canonicalization_witness :
    ("alice".toList ≠ ([] : List Char)) ∧
    get_linkedin_from_github ("linkedin.com/in/".toList ++ "alice".toList)
      = some ("https://linkedin.com/in/".toList ++ "alice".toList) :=
  ⟨by decide, (C7_shorthand_canonicalization ("alice".toList) (by decide) (by decide)).1⟩

end CandidateAnalysis
